import Mathlib

/-!
Verification development for the minechat client
(src/main.rs, src/protocol.rs).

The protocol messages are a serde internally-tagged enum
(tag field "type", payload under "payload") written as one
JSON text per line.  We embed the message type, the JSON
fragment the codec actually uses (strings, null, objects),
serde_json's string escaping, a recursive-descent parser for
that fragment, and the event loop of `repl` as a function
over an explicit list of scheduler events.
-/

namespace MineChat

/-- Payload of an AUTH message (struct AuthPayload in main.rs). -/
structure AuthPayload where
  client_uuid : String
  link_code : String
deriving DecidableEq, Repr

/-- Payload of an AUTH_ACK message (struct AuthAckPayload). -/
structure AuthAckPayload where
  status : String
  message : String
  minecraft_uuid : Option String
  username : Option String
deriving DecidableEq, Repr

/-- Payload of a CHAT message (struct ChatPayload). -/
structure ChatPayload where
  message : String
deriving DecidableEq, Repr

/-- Payload of a BROADCAST message (struct BroadcastPayload); the Rust
field `from` is a Lean keyword, so it is embedded as `from_`. -/
structure BroadcastPayload where
  from_ : String
  message : String
deriving DecidableEq, Repr

/-- Payload of a DISCONNECT message (struct DisconnectPayload). -/
structure DisconnectPayload where
  reason : String
deriving DecidableEq, Repr

/-- The tagged message enum (enum MineChatMessage in main.rs). -/
inductive MineChatMessage where
  | Auth (payload : AuthPayload)
  | AuthAck (payload : AuthAckPayload)
  | Chat (payload : ChatPayload)
  | Broadcast (payload : BroadcastPayload)
  | Disconnect (payload : DisconnectPayload)
deriving DecidableEq, Repr

/-- The fragment of JSON values the protocol uses: strings, null
(for a missing Option), and objects with ordered fields. -/
inductive Json where
  | str (s : String)
  | null
  | obj (fields : List (String × Json))

/-- Lower-case hex digit, as serde_json's HEX_DIGITS table emits. -/
def toHexDigit (n : Nat) : Char :=
  if n < 10 then Char.ofNat (48 + n) else Char.ofNat (87 + n)

/-- serde_json's escaping of one character inside a JSON string:
quote and backslash get a backslash escape, the five control
characters with short forms get those, any other control character
below 0x20 becomes a \u00XX escape, everything else is verbatim. -/
def escapeChar (c : Char) : List Char :=
  if c = '"' then ['\\', '"']
  else if c = '\\' then ['\\', '\\']
  else if c = Char.ofNat 8 then ['\\', 'b']
  else if c = '\t' then ['\\', 't']
  else if c = '\n' then ['\\', 'n']
  else if c = Char.ofNat 12 then ['\\', 'f']
  else if c = '\r' then ['\\', 'r']
  else if c.toNat < 32 then
    ['\\', 'u', '0', '0', toHexDigit (c.toNat / 16), toHexDigit (c.toNat % 16)]
  else [c]

/-- Escape a whole string body. -/
def escapeString (s : List Char) : List Char :=
  s.flatMap escapeChar

/-- Render a JSON string literal including the surrounding quotes. -/
def renderString (s : String) : List Char :=
  '"' :: escapeString s.data ++ ['"']

mutual

/-- Render a JSON value the way serde_json's compact writer does
(no whitespace, fields in order). -/
def Json.render : Json → List Char
  | .str s => renderString s
  | .null => ['n', 'u', 'l', 'l']
  | .obj ms => '{' :: renderMembers ms ++ ['}']

/-- Render the members of an object, comma separated. -/
def renderMembers : List (String × Json) → List Char
  | [] => []
  | [(k, v)] => renderString k ++ ':' :: Json.render v
  | (k, v) :: m2 :: ms =>
      renderString k ++ ':' :: Json.render v ++ ',' :: renderMembers (m2 :: ms)

end

/-- JSON whitespace. -/
def isJsonWs (c : Char) : Bool :=
  c = ' ' || c = '\t' || c = '\n' || c = '\r'

/-- Skip leading JSON whitespace. -/
def skipWs : List Char → List Char
  | [] => []
  | c :: r => if isJsonWs c then skipWs r else c :: r

/-- Value of one hex digit, either case, as JSON \u escapes allow. -/
def hexVal (c : Char) : Option Nat :=
  if 48 ≤ c.toNat ∧ c.toNat ≤ 57 then some (c.toNat - 48)
  else if 97 ≤ c.toNat ∧ c.toNat ≤ 102 then some (c.toNat - 87)
  else if 65 ≤ c.toNat ∧ c.toNat ≤ 70 then some (c.toNat - 55)
  else none

/-- Parse the body of a JSON string literal after the opening quote,
returning the unescaped characters and the rest of the input after
the closing quote.  Raw control characters are rejected, as serde_json
rejects them. -/
def parseStringBody : List Char → Option (List Char × List Char)
  | [] => none
  | c :: r =>
    if c = '"' then some ([], r)
    else if c = '\\' then
      match r with
      | [] => none
      | e :: r2 =>
        if e = '"' then (parseStringBody r2).map (fun p => ('"' :: p.1, p.2))
        else if e = '\\' then (parseStringBody r2).map (fun p => ('\\' :: p.1, p.2))
        else if e = '/' then (parseStringBody r2).map (fun p => ('/' :: p.1, p.2))
        else if e = 'b' then (parseStringBody r2).map (fun p => (Char.ofNat 8 :: p.1, p.2))
        else if e = 'f' then (parseStringBody r2).map (fun p => (Char.ofNat 12 :: p.1, p.2))
        else if e = 'n' then (parseStringBody r2).map (fun p => ('\n' :: p.1, p.2))
        else if e = 'r' then (parseStringBody r2).map (fun p => ('\r' :: p.1, p.2))
        else if e = 't' then (parseStringBody r2).map (fun p => ('\t' :: p.1, p.2))
        else if e = 'u' then
          match r2 with
          | h1 :: h2 :: h3 :: h4 :: r3 =>
            match hexVal h1, hexVal h2, hexVal h3, hexVal h4 with
            | some a, some b, some c2, some d =>
              let n := ((a * 16 + b) * 16 + c2) * 16 + d
              if n.isValidChar then
                (parseStringBody r3).map (fun p => (Char.ofNat n :: p.1, p.2))
              else none
            | _, _, _, _ => none
          | _ => none
        else none
    else if c.toNat < 32 then none
    else (parseStringBody r).map (fun p => (c :: p.1, p.2))
  termination_by structural input => input

/-- Parse one or more `"key":value` members followed by the closing
brace, returning the members and the rest after the brace.  The value
parser is passed in; `fuel` bounds the number of members. -/
def parseMembersWith (pv : List Char → Option (Json × List Char)) :
    Nat → List Char → Option (List (String × Json) × List Char)
  | 0, _ => none
  | fuel + 1, input =>
    match skipWs input with
    | '"' :: r =>
      match parseStringBody r with
      | none => none
      | some (k, r2) =>
        match skipWs r2 with
        | ':' :: r3 =>
          match pv r3 with
          | none => none
          | some (v, r4) =>
            match skipWs r4 with
            | ',' :: r5 =>
              (parseMembersWith pv fuel r5).map
                (fun p => ((String.mk k, v) :: p.1, p.2))
            | '}' :: r5 => some ([(String.mk k, v)], r5)
            | _ => none
        | _ => none
    | _ => none

/-- Parse one JSON value of the protocol fragment.  `fuel` bounds the
recursion; any fuel at least the size of the value suffices. -/
def parseValue : Nat → List Char → Option (Json × List Char)
  | 0, _ => none
  | fuel + 1, input =>
    match skipWs input with
    | '"' :: r => (parseStringBody r).map (fun p => (Json.str (String.mk p.1), p.2))
    | 'n' :: 'u' :: 'l' :: 'l' :: r => some (Json.null, r)
    | '{' :: r =>
      match skipWs r with
      | '}' :: r2 => some (Json.obj [], r2)
      | r2 => (parseMembersWith (parseValue fuel) fuel r2).map
          (fun p => (Json.obj p.1, p.2))
    | _ => none

/-- JSON form of an `Option String` field: serde writes `null` for
`None` and the string itself for `Some`. -/
def optJson : Option String → Json
  | none => .null
  | some s => .str s

/-- Serialization of a message, exactly as serde's internally-tagged
derive writes it: the `type` tag first, then the `payload` field,
struct fields in declaration order. -/
def toJson : MineChatMessage → Json
  | .Auth p => .obj [("type", .str "AUTH"),
      ("payload", .obj [("client_uuid", .str p.client_uuid),
        ("link_code", .str p.link_code)])]
  | .AuthAck p => .obj [("type", .str "AUTH_ACK"),
      ("payload", .obj [("status", .str p.status),
        ("message", .str p.message),
        ("minecraft_uuid", optJson p.minecraft_uuid),
        ("username", optJson p.username)])]
  | .Chat p => .obj [("type", .str "CHAT"),
      ("payload", .obj [("message", .str p.message)])]
  | .Broadcast p => .obj [("type", .str "BROADCAST"),
      ("payload", .obj [("from", .str p.from_),
        ("message", .str p.message)])]
  | .Disconnect p => .obj [("type", .str "DISCONNECT"),
      ("payload", .obj [("reason", .str p.reason)])]

/-- Object view of a JSON value. -/
def asObj : Json → Option (List (String × Json))
  | .obj fs => some fs
  | _ => none

/-- String view of a JSON value. -/
def asStr : Json → Option String
  | .str s => some s
  | _ => none

/-- Option-of-string view: null is None, a string is Some, anything
else is a type error. -/
def asOptStr : Json → Option (Option String)
  | .null => some none
  | .str s => some (some s)
  | _ => none

/-- First field with the given key, as serde's field lookup sees it. -/
def getField (fs : List (String × Json)) (k : String) : Option Json :=
  (fs.find? (fun p => p.1 == k)).map (fun p => p.2)

/-- An optional struct field: missing means None, present must be
null or a string. -/
def getOptStr (fs : List (String × Json)) (k : String) : Option (Option String) :=
  match getField fs k with
  | none => some none
  | some v => asOptStr v

/-- Deserialize the payload for a known tag from the object fields;
an unknown tag is a deserialization error (serde: unknown variant). -/
def decodeTag (t : String) (fs : List (String × Json)) : Option MineChatMessage :=
  if t = "AUTH" then
    match getField fs "payload" with
    | some (.obj pf) =>
      match getField pf "client_uuid", getField pf "link_code" with
      | some (.str cu), some (.str lc) => some (.Auth ⟨cu, lc⟩)
      | _, _ => none
    | _ => none
  else if t = "AUTH_ACK" then
    match getField fs "payload" with
    | some (.obj pf) =>
      match getField pf "status", getField pf "message",
            getOptStr pf "minecraft_uuid", getOptStr pf "username" with
      | some (.str st), some (.str ms), some mu, some un =>
          some (.AuthAck ⟨st, ms, mu, un⟩)
      | _, _, _, _ => none
    | _ => none
  else if t = "CHAT" then
    match getField fs "payload" with
    | some (.obj pf) =>
      match getField pf "message" with
      | some (.str ms) => some (.Chat ⟨ms⟩)
      | _ => none
    | _ => none
  else if t = "BROADCAST" then
    match getField fs "payload" with
    | some (.obj pf) =>
      match getField pf "from", getField pf "message" with
      | some (.str fr), some (.str ms) => some (.Broadcast ⟨fr, ms⟩)
      | _, _ => none
    | _ => none
  else if t = "DISCONNECT" then
    match getField fs "payload" with
    | some (.obj pf) =>
      match getField pf "reason" with
      | some (.str re) => some (.Disconnect ⟨re⟩)
      | _ => none
    | _ => none
  else none

/-- Deserialize a message from a JSON value: the value must be an
object whose `type` field is a recognized tag. -/
def fromJson (j : Json) : Option MineChatMessage :=
  match j with
  | .obj fs =>
    match getField fs "type" with
    | some (.str t) => decodeTag t fs
    | _ => none
  | _ => none

/-- serde_json::to_string of a message (compact, cannot fail on this
type). -/
def encodeMsg (m : MineChatMessage) : String :=
  String.mk (Json.render (toJson m))

/-- serde_json::from_str of one line: parse a single JSON value with
optional surrounding whitespace, then deserialize; any parse error,
trailing garbage or unknown tag is an error (`none`). -/
def decodeMsg (line : String) : Option MineChatMessage :=
  match parseValue (line.data.length + 1) line.data with
  | some (j, rest) => if skipWs rest = [] then fromJson j else none
  | none => none

/-- send_message in main.rs: the serialized message plus a single
trailing newline, written to the connection. -/
def send_message (m : MineChatMessage) : String :=
  encodeMsg m ++ "\n"

/-- Rust's BufRead::read_line on available input: everything up to
and including the first newline (or the whole input at EOF). -/
def readLineChars : List Char → List Char
  | [] => []
  | c :: r => if c = '\n' then [c] else c :: readLineChars r

/-- receive_message in main.rs: read one line, then deserialize it;
`none` models the Err(Serde) return. -/
def receive_message (input : String) : Option MineChatMessage :=
  decodeMsg (String.mk (readLineChars input.data))

/-- Rust str::trim at both ends (the whitespace classes that occur
here are ASCII, where Lean's Char.isWhitespace agrees). -/
def trimChars (l : List Char) : List Char :=
  ((l.dropWhile Char.isWhitespace).reverse.dropWhile Char.isWhitespace).reverse

/-- One readiness event of the tokio::select! loop in repl: what the
scheduler delivers at each iteration. -/
inductive Event where
  | inbound (line : String)
  | inboundEof
  | inboundErr
  | stdin (line : String)
  | stdinEof
  | interrupt
deriving DecidableEq, Repr

/-- How the repl loop ended relative to a finite event schedule. -/
inductive Outcome where
  | running
  | finishedOk
  | finishedErr
deriving DecidableEq, Repr

/-- Observable result of running the loop: its outcome, the lines
printed with println!, and the messages whose send succeeded. -/
structure RunResult where
  outcome : Outcome
  displayed : List String
  sent : List MineChatMessage
deriving DecidableEq, Repr

/-- Pop the next write result from the writer schedule; an exhausted
schedule means the write succeeds. -/
def takeSend : List Bool → Bool × List Bool
  | [] => (true, [])
  | b :: r => (b, r)

/-- The repl loop of main.rs over an explicit event schedule.
`pending` is the outcome of each future connection write in order
(false = the write in send_message fails).  Mirrors repl branch by
branch: inbound lines are deserialized, Broadcast prints, Disconnect
prints and returns Ok, other tags are only debug-logged, parse
failures are dropped; inbound Ok(0) returns Ok; inbound Err returns
Err; stdin Ok(0), a trimmed "/exit" line, and ctrl_c each send
Disconnect "Client exit" and return Ok, with a send error propagated
by the ? operator; any other stdin line sends Chat with the trimmed
text and continues. -/
def replRun (pending : List Bool) : List Event → RunResult
  | [] => ⟨.running, [], []⟩
  | e :: es =>
    match e with
    | .inbound line =>
      match decodeMsg line with
      | some (.Broadcast p) =>
        let r := replRun pending es
        ⟨r.outcome, ("[" ++ p.from_ ++ "] " ++ p.message) :: r.displayed, r.sent⟩
      | some (.Disconnect p) =>
        ⟨.finishedOk, ["Disconnected: " ++ p.reason], []⟩
      | some _ => replRun pending es
      | none => replRun pending es
    | .inboundEof => ⟨.finishedOk, [], []⟩
    | .inboundErr => ⟨.finishedErr, [], []⟩
    | .stdin line =>
      if String.mk (trimChars line.data) = "/exit" then
        match takeSend pending with
        | (true, _) => ⟨.finishedOk, [], [.Disconnect ⟨"Client exit"⟩]⟩
        | (false, _) => ⟨.finishedErr, [], []⟩
      else
        match takeSend pending with
        | (true, p2) =>
          let r := replRun p2 es
          ⟨r.outcome, r.displayed, .Chat ⟨String.mk (trimChars line.data)⟩ :: r.sent⟩
        | (false, _) => ⟨.finishedErr, [], []⟩
    | .stdinEof =>
      match takeSend pending with
      | (true, _) => ⟨.finishedOk, [], [.Disconnect ⟨"Client exit"⟩]⟩
      | (false, _) => ⟨.finishedErr, [], []⟩
    | .interrupt =>
      match takeSend pending with
      | (true, _) => ⟨.finishedOk, [], [.Disconnect ⟨"Client exit"⟩]⟩
      | (false, _) => ⟨.finishedErr, [], []⟩

/-- One entry of servers.json (struct ServerEntry). -/
structure ServerEntry where
  address : String
  uuid : String
deriving DecidableEq, Repr

/-- The config update handle_link performs on a success AuthAck:
retain the entries whose address differs, then push the new entry
with the locally generated client uuid. -/
def linkPersist (servers : List ServerEntry) (addr clientUuid : String) :
    List ServerEntry :=
  servers.filter (fun e => !(e.address == addr)) ++ [⟨addr, clientUuid⟩]

/-- Result of handle_link after the AuthAck is received. -/
inductive LinkResult where
  | ok (newServers : List ServerEntry)
  | authFailed (msg : String)
deriving DecidableEq, Repr

/-- The response handling of handle_link: on AuthAck with status
"success" persist the client uuid; on any other status fail with the
server's message; on any other tag fail with "Unexpected response". -/
def handle_link_ack (servers : List ServerEntry) (addr clientUuid : String)
    (resp : MineChatMessage) : LinkResult :=
  match resp with
  | .AuthAck p =>
    if p.status = "success" then .ok (linkPersist servers addr clientUuid)
    else .authFailed p.message
  | _ => .authFailed "Unexpected response"

/-- The config lookup at the top of handle_connect. -/
def lookupEntry (servers : List ServerEntry) (addr : String) : Option ServerEntry :=
  servers.find? (fun e => e.address == addr)

/-- What handle_connect decides before touching the network: fail
with ServerNotLinked, or proceed with the stored uuid. -/
inductive ConnectStart where
  | notLinked
  | proceed (uuid : String)
deriving DecidableEq, Repr

/-- One network operation of the connect flow. -/
inductive NetOp where
  | connect
  | send (m : MineChatMessage)
  | recv
deriving DecidableEq, Repr

/-- handle_connect up to its first network operation: the config is
consulted first, and a missing entry short-circuits with
ServerNotLinked via the ? on ok_or. -/
def handle_connect_start (servers : List ServerEntry) (addr : String) :
    ConnectStart :=
  match lookupEntry servers addr with
  | none => .notLinked
  | some e => .proceed e.uuid

/-- Network operations each start decision performs: none at all on
the ServerNotLinked path, otherwise TcpStream::connect, the Auth
send with empty link_code, and the AuthAck receive. -/
def startNetOps : ConnectStart → List NetOp
  | .notLinked => []
  | .proceed uuid => [.connect, .send (.Auth ⟨uuid, ""⟩), .recv]

/-! ### Round-trip of the string escaping -/

theorem hexVal_toHexDigit : ∀ n < 16, hexVal (toHexDigit n) = some n := by
  decide

theorem psb_close (r : List Char) : parseStringBody ('"' :: r) = some ([], r) := by
  rw [parseStringBody.eq_def]; simp

theorem psb_q (r : List Char) :
    parseStringBody ('\\' :: '"' :: r)
      = (parseStringBody r).map (fun p => ('"' :: p.1, p.2)) := by
  rw [parseStringBody.eq_def]; simp

theorem psb_bs (r : List Char) :
    parseStringBody ('\\' :: '\\' :: r)
      = (parseStringBody r).map (fun p => ('\\' :: p.1, p.2)) := by
  rw [parseStringBody.eq_def]; simp

theorem psb_b (r : List Char) :
    parseStringBody ('\\' :: 'b' :: r)
      = (parseStringBody r).map (fun p => (Char.ofNat 8 :: p.1, p.2)) := by
  rw [parseStringBody.eq_def]; simp

theorem psb_f (r : List Char) :
    parseStringBody ('\\' :: 'f' :: r)
      = (parseStringBody r).map (fun p => (Char.ofNat 12 :: p.1, p.2)) := by
  rw [parseStringBody.eq_def]; simp

theorem psb_n (r : List Char) :
    parseStringBody ('\\' :: 'n' :: r)
      = (parseStringBody r).map (fun p => ('\n' :: p.1, p.2)) := by
  rw [parseStringBody.eq_def]; simp

theorem psb_r (r : List Char) :
    parseStringBody ('\\' :: 'r' :: r)
      = (parseStringBody r).map (fun p => ('\r' :: p.1, p.2)) := by
  rw [parseStringBody.eq_def]; simp

theorem psb_t (r : List Char) :
    parseStringBody ('\\' :: 't' :: r)
      = (parseStringBody r).map (fun p => ('\t' :: p.1, p.2)) := by
  rw [parseStringBody.eq_def]; simp

theorem psb_u (h1 h2 h3 h4 : Char) (r : List Char) :
    parseStringBody ('\\' :: 'u' :: h1 :: h2 :: h3 :: h4 :: r)
      = match hexVal h1, hexVal h2, hexVal h3, hexVal h4 with
        | some a, some b, some c2, some d =>
          if (((a * 16 + b) * 16 + c2) * 16 + d).isValidChar then
            (parseStringBody r).map
              (fun p => (Char.ofNat (((a * 16 + b) * 16 + c2) * 16 + d) :: p.1, p.2))
          else none
        | _, _, _, _ => none := by
  rw [parseStringBody.eq_def]; simp

theorem psb_raw (c : Char) (r : List Char) (h1 : ¬c = '"') (h2 : ¬c = '\\')
    (h8 : ¬c.toNat < 32) :
    parseStringBody (c :: r)
      = (parseStringBody r).map (fun p => (c :: p.1, p.2)) := by
  rw [parseStringBody.eq_def]; simp [h1, h2, h8]

theorem parseStringBody_escape (s : List Char) (rest : List Char) :
    parseStringBody (escapeString s ++ '"' :: rest) = some (s, rest) := by
  induction s with
  | nil => simp [escapeString, psb_close]
  | cons c cs ih =>
    have hs : escapeString (c :: cs) ++ '"' :: rest
        = escapeChar c ++ (escapeString cs ++ '"' :: rest) := by
      simp [escapeString]
    rw [hs]
    by_cases h1 : c = '"'
    · subst h1; simp [escapeChar, psb_q, ih]
    by_cases h2 : c = '\\'
    · subst h2; simp [escapeChar, psb_bs, ih]
    by_cases h3 : c = Char.ofNat 8
    · subst h3; simp [escapeChar, psb_b, ih]
    by_cases h4 : c = '\t'
    · subst h4; simp [escapeChar, psb_t, ih]
    by_cases h5 : c = '\n'
    · subst h5; simp [escapeChar, psb_n, ih]
    by_cases h6 : c = Char.ofNat 12
    · subst h6; simp [escapeChar, psb_f, ih]
    by_cases h7 : c = '\r'
    · subst h7; simp [escapeChar, psb_r, ih]
    by_cases h8 : c.toNat < 32
    · have hdiv : c.toNat / 16 < 16 := by omega
      have hmod : c.toNat % 16 < 16 := Nat.mod_lt _ (by omega)
      have hvalid : Nat.isValidChar (((0 * 16 + 0) * 16 + c.toNat / 16) * 16 + c.toNat % 16) := by
        left; omega
      have hesc : escapeChar c
          = ['\\', 'u', '0', '0', toHexDigit (c.toNat / 16), toHexDigit (c.toNat % 16)] := by
        simp [escapeChar, h1, h2, h3, h4, h5, h6, h7, h8]
      rw [hesc]
      have hzero : hexVal '0' = some 0 := rfl
      simp only [List.cons_append, List.nil_append]
      rw [psb_u, hzero, hexVal_toHexDigit _ hdiv, hexVal_toHexDigit _ hmod]
      have hv : ((0 * 16 + 0) * 16 + c.toNat / 16) * 16 + c.toNat % 16 = c.toNat := by
        omega
      simp only [hvalid, if_pos, ih, hv, Char.ofNat_toNat, Option.map_some]
      have hvalid2 : c.toNat.isValidChar := Or.inl (by omega)
      simp [hvalid2]
    · have hesc : escapeChar c = [c] := by
        simp [escapeChar, h1, h2, h3, h4, h5, h6, h7, h8]
      rw [hesc]
      simp only [List.cons_append, List.nil_append]
      rw [psb_raw c _ h1 h2 h8, ih]
      rfl

/-! ### Round-trip of the value parser -/

mutual

/-- Fuel lower bound sufficient to parse a rendered value. -/
def sizeJ : Json → Nat
  | .str _ => 1
  | .null => 1
  | .obj ms => 1 + sizeMs ms

/-- Fuel lower bound for a member list. -/
def sizeMs : List (String × Json) → Nat
  | [] => 0
  | (_, v) :: ms => 1 + sizeJ v + sizeMs ms

end

theorem sizeJ_pos (j : Json) : 1 ≤ sizeJ j := by
  cases j <;> simp [sizeJ]

theorem length_le_sizeMs (ms : List (String × Json)) : ms.length ≤ sizeMs ms := by
  induction ms with
  | nil => simp [sizeMs]
  | cons m ms ih =>
    obtain ⟨k, v⟩ := m
    have := sizeJ_pos v
    simp only [List.length_cons, sizeMs]
    omega

theorem member_sizeJ_le (ms : List (String × Json)) :
    ∀ kv ∈ ms, sizeJ kv.2 ≤ sizeMs ms := by
  induction ms with
  | nil => simp
  | cons m ms ih =>
    obtain ⟨k, v⟩ := m
    intro kv hkv
    rcases List.mem_cons.mp hkv with h | h
    · subst h; simp [sizeMs]; omega
    · have := ih kv h
      simp [sizeMs]
      omega

theorem skipWs_cons (c : Char) (r : List Char) (h : isJsonWs c = false) :
    skipWs (c :: r) = c :: r := by
  simp [skipWs, h]

theorem pv_str (f : Nat) (r : List Char) :
    parseValue (f + 1) ('"' :: r)
      = (parseStringBody r).map (fun p => (Json.str (String.mk p.1), p.2)) := by
  rw [parseValue.eq_def]; simp [skipWs, isJsonWs]

theorem pv_null (f : Nat) (r : List Char) :
    parseValue (f + 1) ('n' :: 'u' :: 'l' :: 'l' :: r) = some (Json.null, r) := by
  rw [parseValue.eq_def]; simp [skipWs, isJsonWs]

theorem pv_obj_empty (f : Nat) (r : List Char) :
    parseValue (f + 1) ('{' :: '}' :: r) = some (Json.obj [], r) := by
  rw [parseValue.eq_def]; simp [skipWs, isJsonWs]

theorem pv_obj_quote (f : Nat) (r : List Char) :
    parseValue (f + 1) ('{' :: '"' :: r)
      = (parseMembersWith (parseValue f) f ('"' :: r)).map
          (fun p => (Json.obj p.1, p.2)) := by
  rw [parseValue.eq_def]; simp [skipWs, isJsonWs]

theorem renderMembers_head (k : String) (v : Json) (ms : List (String × Json)) :
    ∃ t, renderMembers ((k, v) :: ms) = '"' :: t := by
  cases ms <;> simp [renderMembers, renderString]

theorem parseMembersWith_render (pv : List Char → Option (Json × List Char)) :
    ∀ ms : List (String × Json), ms ≠ [] →
    (∀ kv ∈ ms, ∀ rest2, pv (Json.render kv.2 ++ rest2) = some (kv.2, rest2)) →
    ∀ fuel, ms.length ≤ fuel → ∀ rest,
      parseMembersWith pv fuel (renderMembers ms ++ '}' :: rest) = some (ms, rest) := by
  intro ms
  induction ms with
  | nil => intro h; exact absurd rfl h
  | cons m tail ih =>
    obtain ⟨k, v⟩ := m
    intro _ hpv fuel hfuel rest
    obtain ⟨fuel, rfl⟩ : ∃ f, fuel = f + 1 := by
      cases fuel
      · simp at hfuel
      · exact ⟨_, rfl⟩
    have hpvv := hpv (k, v) (List.mem_cons_self _ _)
    cases tail with
    | nil =>
      have hinput : renderMembers [(k, v)] ++ '}' :: rest
          = '"' :: (escapeString k.data
              ++ '"' :: (':' :: (Json.render v ++ '}' :: rest))) := by
        simp [renderMembers, renderString]
      rw [hinput, parseMembersWith.eq_def]
      simp only [skipWs_cons _ _ (by rfl : isJsonWs '"' = false)]
      rw [parseStringBody_escape]
      simp only [skipWs_cons _ _ (by rfl : isJsonWs ':' = false)]
      rw [hpvv ('}' :: rest)]
      simp [skipWs, isJsonWs]
    | cons m2 tail2 =>
      have hinput : renderMembers ((k, v) :: m2 :: tail2) ++ '}' :: rest
          = '"' :: (escapeString k.data
              ++ '"' :: (':' :: (Json.render v
                ++ ',' :: (renderMembers (m2 :: tail2) ++ '}' :: rest)))) := by
        simp [renderMembers, renderString]
      rw [hinput, parseMembersWith.eq_def]
      simp only [skipWs_cons _ _ (by rfl : isJsonWs '"' = false)]
      rw [parseStringBody_escape]
      simp only [skipWs_cons _ _ (by rfl : isJsonWs ':' = false)]
      rw [hpvv (',' :: (renderMembers (m2 :: tail2) ++ '}' :: rest))]
      simp only [skipWs_cons _ _ (by rfl : isJsonWs ',' = false)]
      rw [ih (by simp) (fun kv hkv rest2 => hpv kv (List.mem_cons_of_mem _ hkv) rest2)
        fuel (by simpa using Nat.le_of_succ_le_succ hfuel) rest]
      rfl

theorem parseValue_render :
    ∀ fuel (j : Json) (rest : List Char), sizeJ j ≤ fuel →
      parseValue fuel (Json.render j ++ rest) = some (j, rest) := by
  intro fuel
  induction fuel with
  | zero =>
    intro j rest h
    have := sizeJ_pos j
    omega
  | succ f ih =>
    intro j rest _
    cases j with
    | str s =>
      have hinput : Json.render (.str s) ++ rest
          = '"' :: (escapeString s.data ++ '"' :: rest) := by
        simp [Json.render, renderString]
      rw [hinput, pv_str, parseStringBody_escape]
      rfl
    | null =>
      have hinput : Json.render Json.null ++ rest
          = 'n' :: 'u' :: 'l' :: 'l' :: rest := by
        simp [Json.render]
      rw [hinput, pv_null]
    | obj ms =>
      rename_i hsize
      cases ms with
      | nil =>
        have hinput : Json.render (.obj []) ++ rest = '{' :: '}' :: rest := by
          simp [Json.render, renderMembers]
        rw [hinput, pv_obj_empty]
      | cons m tail =>
        obtain ⟨k, v⟩ := m
        have hszm : sizeMs ((k, v) :: tail) ≤ f := by
          simp [sizeJ] at hsize
          omega
        obtain ⟨t, ht⟩ := renderMembers_head k v tail
        have hinput : Json.render (.obj ((k, v) :: tail)) ++ rest
            = '{' :: '"' :: (t ++ '}' :: rest) := by
          simp [Json.render, ht]
        rw [hinput, pv_obj_quote]
        have hback : ('"' : Char) :: (t ++ '}' :: rest)
            = renderMembers ((k, v) :: tail) ++ '}' :: rest := by
          simp [ht]
        rw [hback]
        rw [parseMembersWith_render (parseValue f) ((k, v) :: tail) (by simp)
          (fun kv hkv rest2 => ih kv.2 rest2
            (le_trans (member_sizeJ_le _ kv hkv) hszm))
          f (le_trans (length_le_sizeMs _) hszm) rest]
        rfl

mutual

theorem sizeJ_le_render_length : ∀ j : Json, sizeJ j ≤ (Json.render j).length
  | .str s => by simp [Json.render, renderString, sizeJ]
  | .null => by simp [Json.render, sizeJ]
  | .obj ms => by
    have h := sizeMs_le_renderMembers_length ms
    simp only [Json.render, sizeJ, List.length_cons, List.length_append,
      List.length_singleton]
    omega

theorem sizeMs_le_renderMembers_length :
    ∀ ms : List (String × Json), sizeMs ms ≤ (renderMembers ms).length + 1
  | [] => by simp [sizeMs, renderMembers]
  | [(k, v)] => by
    have h := sizeJ_le_render_length v
    simp only [sizeMs, renderMembers, renderString, List.length_append,
      List.length_cons]
    omega
  | (k, v) :: (k2, v2) :: ms => by
    have h1 := sizeJ_le_render_length v
    have h2 := sizeMs_le_renderMembers_length ((k2, v2) :: ms)
    simp only [sizeMs, renderMembers, renderString, List.length_append,
      List.length_cons] at h2 ⊢
    omega

end

/-! ### The encoder emits no raw newline -/

theorem toHexDigit_ne_newline : ∀ n < 16, toHexDigit n ≠ '\n' := by decide

theorem escapeChar_no_newline (c : Char) : '\n' ∉ escapeChar c := by
  unfold escapeChar
  split_ifs with h1 h2 h3 h4 h5 h6 h7 h8
  · decide
  · decide
  · decide
  · decide
  · decide
  · decide
  · decide
  · intro hmem
    have d1 : toHexDigit (c.toNat / 16) ≠ '\n' :=
      toHexDigit_ne_newline _ (by omega)
    have d2 : toHexDigit (c.toNat % 16) ≠ '\n' :=
      toHexDigit_ne_newline _ (Nat.mod_lt _ (by omega))
    simp only [List.mem_cons, List.not_mem_nil, or_false] at hmem
    rcases hmem with h | h | h | h | h | h
    · exact absurd h (by decide)
    · exact absurd h (by decide)
    · exact absurd h (by decide)
    · exact absurd h (by decide)
    · exact d1 h.symm
    · exact d2 h.symm
  · intro hmem
    simp only [List.mem_cons, List.not_mem_nil, or_false] at hmem
    exact h5 hmem.symm

theorem escapeString_no_newline (s : List Char) : '\n' ∉ escapeString s := by
  induction s with
  | nil => simp [escapeString]
  | cons c cs ih =>
    simp only [escapeString, List.flatMap_cons, List.mem_append]
    rintro (h | h)
    · exact escapeChar_no_newline c h
    · exact ih h

theorem noNl_cons {c : Char} {r : List Char} (hc : c ≠ '\n') (hr : '\n' ∉ r) :
    '\n' ∉ c :: r := by
  simp only [List.mem_cons, not_or]
  exact ⟨fun hh => hc hh.symm, hr⟩

theorem noNl_append {l1 l2 : List Char} (h1 : '\n' ∉ l1) (h2 : '\n' ∉ l2) :
    '\n' ∉ l1 ++ l2 := by
  simp only [List.mem_append, not_or]
  exact ⟨h1, h2⟩

theorem renderString_no_newline (s : String) : '\n' ∉ renderString s := by
  rw [renderString]
  exact noNl_cons (by decide)
    (noNl_append (escapeString_no_newline s.data) (by decide))

mutual

theorem render_no_newline : ∀ j : Json, '\n' ∉ Json.render j
  | .str s => by
    have he : Json.render (.str s) = renderString s := by simp [Json.render]
    rw [he]
    exact renderString_no_newline s
  | .null => by
    have he : Json.render .null = ['n', 'u', 'l', 'l'] := by simp [Json.render]
    rw [he]
    decide
  | .obj ms => by
    have he : Json.render (.obj ms) = '{' :: (renderMembers ms ++ ['}']) := by
      simp [Json.render]
    rw [he]
    exact noNl_cons (by decide)
      (noNl_append (renderMembers_no_newline ms) (by decide))

theorem renderMembers_no_newline :
    ∀ ms : List (String × Json), '\n' ∉ renderMembers ms
  | [] => by
    have he : renderMembers [] = ([] : List Char) := by simp [renderMembers]
    rw [he]
    decide
  | [(k, v)] => by
    have he : renderMembers [(k, v)] = renderString k ++ ':' :: Json.render v := by
      simp [renderMembers]
    rw [he]
    exact noNl_append (renderString_no_newline k)
      (noNl_cons (by decide) (render_no_newline v))
  | (k, v) :: (k2, v2) :: ms => by
    have he : renderMembers ((k, v) :: (k2, v2) :: ms)
        = renderString k ++ ':' :: (Json.render v
            ++ ',' :: renderMembers ((k2, v2) :: ms)) := by
      simp [renderMembers]
    rw [he]
    exact noNl_append (renderString_no_newline k)
      (noNl_cons (by decide)
        (noNl_append (render_no_newline v)
          (noNl_cons (by decide) (renderMembers_no_newline ((k2, v2) :: ms)))))

end

/-! ### Encode/decode round trip -/

theorem fromJson_toJson : ∀ m : MineChatMessage, fromJson (toJson m) = some m := by
  intro m
  cases m with
  | Auth p => rfl
  | AuthAck p =>
    obtain ⟨s, msg, mu, un⟩ := p
    cases mu <;> cases un <;> rfl
  | Chat p => rfl
  | Broadcast p => rfl
  | Disconnect p => rfl

theorem decodeMsg_encode (m : MineChatMessage) :
    decodeMsg (encodeMsg m ++ "\n") = some m := by
  have hdata : (encodeMsg m ++ "\n").data
      = Json.render (toJson m) ++ ['\n'] := by
    simp [encodeMsg, String.data_append]
  unfold decodeMsg
  rw [hdata]
  have hlen : (Json.render (toJson m) ++ ['\n']).length + 1
      = ((Json.render (toJson m)).length + 1) + 1 := by
    simp
  rw [hlen, parseValue_render (((Json.render (toJson m)).length + 1) + 1)
    (toJson m) ['\n'] (by have := sizeJ_le_render_length (toJson m); omega)]
  simp [skipWs, isJsonWs, fromJson_toJson]

theorem readLineChars_to_newline (l r' : List Char) (h : '\n' ∉ l) :
    readLineChars (l ++ '\n' :: r') = l ++ ['\n'] := by
  induction l with
  | nil => simp [readLineChars]
  | cons c cs ih =>
    simp only [List.mem_cons, not_or] at h
    have hc : ¬(c = '\n') := fun hh => h.1 hh.symm
    simp only [List.cons_append, readLineChars, if_neg hc]
    simp only [List.append_eq]
    rw [ih h.2]

theorem decodeMsg_send_message (m : MineChatMessage) :
    decodeMsg (send_message m) = some m := by
  rw [send_message]
  exact decodeMsg_encode m

theorem receive_send_roundtrip_aux (m : MineChatMessage) :
    receive_message (send_message m) = some m := by
  have hdata : (send_message m).data = Json.render (toJson m) ++ '\n' :: [] := by
    simp [send_message, encodeMsg, String.data_append]
  unfold receive_message
  rw [hdata, readLineChars_to_newline _ _ (render_no_newline (toJson m))]
  have hstr : String.mk (Json.render (toJson m) ++ ['\n'])
      = encodeMsg m ++ "\n" := by
    simp [encodeMsg]
    rfl
  rw [hstr]
  exact decodeMsg_encode m

/-- Outbound message kinds the repl loop is allowed to produce. -/
def clientSends : MineChatMessage → Bool
  | .Chat _ => true
  | .Disconnect _ => true
  | _ => false

/-! ### Claims -/

/-- C1: for every envelope value, decoding the encoded line yields it
back: receive_message applied to the output of send_message returns
the same envelope, for all five variants with arbitrary string and
optional-string payload fields. -/
theorem receive_send_roundtrip (m : MineChatMessage) :
    receive_message (send_message m) = some m :=
  receive_send_roundtrip_aux m

/-- C7: the encoder's output is exactly one line for every envelope:
the output contains a single newline and it is the final character,
even when payload fields contain the line terminator (those are
escaped, never emitted raw). -/
theorem send_message_single_line (m : MineChatMessage) :
    (send_message m).data.count '\n' = 1 ∧
    (send_message m).data.getLast? = some '\n' := by
  have hdata : (send_message m).data = Json.render (toJson m) ++ ['\n'] := by
    simp [send_message, encodeMsg, String.data_append]
  rw [hdata]
  constructor
  · rw [List.count_append]
    have h0 : (Json.render (toJson m)).count '\n' = 0 :=
      List.count_eq_zero.mpr (render_no_newline (toJson m))
    simp [h0]
  · exact List.getLast?_concat _

/-- C8 counterexample: a well-formed JSON line (it parses to an
object carrying a type tag "PING") whose tag is outside the five
known values is rejected by receive_message as a decode error,
instead of being passed to the caller as an unhandled envelope. -/
theorem unknown_tag_rejected_cex :
    parseValue (("\x7b\"type\":\"PING\",\"payload\":\x7b\x7d\x7d\n").data.length + 1)
        ("\x7b\"type\":\"PING\",\"payload\":\x7b\x7d\x7d\n").data
      = some (Json.obj [("type", Json.str "PING"), ("payload", Json.obj [])], ['\n']) ∧
    receive_message "\x7b\"type\":\"PING\",\"payload\":\x7b\x7d\x7d\n" = none :=
  ⟨rfl, rfl⟩

/-- C8 (amended): a well-formed JSON object whose type tag is none of
the five known tags fails to decode at the codec layer (serde's
unknown-variant error); during multiplexing the caller absorbs any
decode failure by dropping the line and continuing unchanged. -/
theorem unknown_tag_decode_error_and_discard :
    (∀ (fs : List (String × Json)) (t : String),
      getField fs "type" = some (.str t) →
      t ≠ "AUTH" → t ≠ "AUTH_ACK" → t ≠ "CHAT" → t ≠ "BROADCAST" →
      t ≠ "DISCONNECT" → fromJson (.obj fs) = none) ∧
    (∀ (line : String) (pending : List Bool) (es : List Event),
      decodeMsg line = none →
      replRun pending (.inbound line :: es) = replRun pending es) := by
  constructor
  · intro fs t hget h1 h2 h3 h4 h5
    simp [fromJson, hget, decodeTag, h1, h2, h3, h4, h5]
  · intro line pending es h
    simp [replRun, h]

/-- C8 witness. -/
theorem unknown_tag_decode_error_and_discard_witness :
    fromJson (.obj [("type", Json.str "PING"), ("payload", Json.obj [])]) = none ∧
    replRun [] [.inbound "garbage\n"] = replRun [] [] :=
  ⟨unknown_tag_decode_error_and_discard.1 _ "PING" rfl (by decide) (by decide)
      (by decide) (by decide) (by decide),
    unknown_tag_decode_error_and_discard.2 "garbage\n" [] [] (by rfl)⟩

/-- C4 counterexample: inbound end-of-stream makes the loop return
its normal outcome printing nothing, observably different from
receiving a Disconnect with reason "connection closed", which prints
the reason line before terminating. -/
theorem inbound_eof_prints_nothing_cex :
    replRun [] [.inboundEof] = ⟨.finishedOk, [], []⟩ ∧
    replRun [] [.inbound (send_message (.Disconnect ⟨"connection closed"⟩))]
      = ⟨.finishedOk, ["Disconnected: connection closed"], []⟩ ∧
    ([] : List String) ≠ ["Disconnected: connection closed"] := by
  refine ⟨rfl, ?_, by decide⟩
  simp [replRun, decodeMsg_send_message]

/-- C4 (amended): when the inbound stream reaches end-of-stream the
multiplexer terminates at once with its normal outcome, printing no
disconnect reason and sending nothing. -/
theorem inbound_eof_silent_normal_exit (pending : List Bool) (es : List Event) :
    replRun pending (.inboundEof :: es) = ⟨.finishedOk, [], []⟩ := by
  simp [replRun]

/-- C3 counterexample: with the connection write failing, the
stdin-EOF termination path propagates the failure of the final
Disconnect send: the loop ends with an error outcome, not its normal
outcome. -/
theorem final_disconnect_send_failure_cex :
    replRun [false] [.stdinEof] = ⟨.finishedErr, [], []⟩ ∧
    Outcome.finishedErr ≠ Outcome.finishedOk :=
  ⟨rfl, by decide⟩

/-- C3 (amended): on each client-initiated termination path (input
end-of-input, the /exit command, external interrupt), a failure of
the final Disconnect send is propagated by the ? operator: the loop
returns an error outcome instead of its normal one. -/
theorem final_disconnect_send_failure_errors (r : List Bool) (es : List Event)
    (line : String) :
    (replRun (false :: r) (.stdinEof :: es)).outcome = .finishedErr ∧
    (replRun (false :: r) (.interrupt :: es)).outcome = .finishedErr ∧
    (String.mk (trimChars line.data) = "/exit" →
      (replRun (false :: r) (.stdin line :: es)).outcome = .finishedErr) := by
  refine ⟨by simp [replRun, takeSend], by simp [replRun, takeSend], fun h => ?_⟩
  simp [replRun, takeSend, h]

/-- C3 witness. -/
theorem final_disconnect_send_failure_errors_witness :
    (replRun [false] [.stdin "/exit"]).outcome = .finishedErr :=
  (final_disconnect_send_failure_errors [] [] "/exit").2.2 (by decide)

/-- C5: for a server address with no stored identity, handle_connect
decides ServerNotLinked from the config alone, and the associated
network-operation trace is empty: no connect, no send, no receive. -/
theorem connect_unlinked_no_network (servers : List ServerEntry) (addr : String)
    (h : lookupEntry servers addr = none) :
    handle_connect_start servers addr = .notLinked ∧
    startNetOps (handle_connect_start servers addr) = [] := by
  simp [handle_connect_start, h, startNetOps]

/-- C5 witness. -/
theorem connect_unlinked_no_network_witness :
    handle_connect_start [] "srv" = .notLinked ∧
    startNetOps (handle_connect_start [] "srv") = [] :=
  connect_unlinked_no_network [] "srv" rfl

/-- C6: an inbound line that fails to decode is discarded and the
loop continues: with a malformed line between two valid Broadcast
frames, both broadcasts are displayed in arrival order, nothing is
sent, and the rest of the run is unaffected. -/
theorem malformed_between_broadcasts (p1 p2 : BroadcastPayload) (bad : String)
    (h : decodeMsg bad = none) (pending : List Bool) (es : List Event) :
    replRun pending (.inbound (send_message (.Broadcast p1))
        :: .inbound bad :: .inbound (send_message (.Broadcast p2)) :: es)
      = ⟨(replRun pending es).outcome,
          ("[" ++ p1.from_ ++ "] " ++ p1.message)
            :: ("[" ++ p2.from_ ++ "] " ++ p2.message)
            :: (replRun pending es).displayed,
          (replRun pending es).sent⟩ := by
  simp [replRun, decodeMsg_send_message, h]

/-- C6 witness. -/
theorem malformed_between_broadcasts_witness :
    replRun [] [.inbound (send_message (.Broadcast ⟨"Bob", "hi"⟩)),
        .inbound "garbage\n", .inbound (send_message (.Broadcast ⟨"Ann", "yo"⟩))]
      = ⟨(replRun [] ([] : List Event)).outcome,
          ("[" ++ "Bob" ++ "] " ++ "hi") :: ("[" ++ "Ann" ++ "] " ++ "yo")
            :: (replRun [] []).displayed,
          (replRun [] []).sent⟩ :=
  malformed_between_broadcasts ⟨"Bob", "hi"⟩ ⟨"Ann", "yo"⟩ "garbage\n" (by rfl) [] []

/-- C9 counterexample: the repl trims the user line before wrapping
it in Chat, so a line is not sent verbatim: submitting the line
" hello" sends Chat "hello", which differs from Chat " hello". -/
theorem chat_not_verbatim_cex :
    replRun [] [.stdin " hello"] = ⟨.running, [], [.Chat ⟨"hello"⟩]⟩ ∧
    MineChatMessage.Chat ⟨"hello"⟩ ≠ .Chat ⟨" hello"⟩ :=
  ⟨rfl, by decide⟩

/-- C9 (amended): every user line whose trimmed text is not /exit is
sent immediately as Chat carrying the trimmed text, before the next
event is handled; and the scenario "hello" then /exit sends exactly
Chat "hello" followed by one Disconnect "Client exit" and
terminates normally. -/
theorem chat_trimmed_and_exit_scenario :
    (∀ (line : String) (es : List Event),
      String.mk (trimChars line.data) ≠ "/exit" →
      replRun [] (.stdin line :: es)
        = ⟨(replRun [] es).outcome, (replRun [] es).displayed,
            .Chat ⟨String.mk (trimChars line.data)⟩ :: (replRun [] es).sent⟩) ∧
    replRun [] [.stdin "hello\n", .stdin "/exit\n"]
      = ⟨.finishedOk, [], [.Chat ⟨"hello"⟩, .Disconnect ⟨"Client exit"⟩]⟩ := by
  constructor
  · intro line es h
    simp [replRun, takeSend, h]
  · rfl

/-- C9 witness. -/
theorem chat_trimmed_and_exit_scenario_witness :
    replRun [] [.stdin "hi\n"]
      = ⟨(replRun [] ([] : List Event)).outcome, (replRun [] []).displayed,
          .Chat ⟨String.mk (trimChars ("hi\n" : String).data)⟩
            :: (replRun [] []).sent⟩ :=
  chat_trimmed_and_exit_scenario.1 "hi\n" [] (by decide)

/-- C10: on every execution path of the multiplexing loop, every
envelope whose connection write happens is a Chat or a Disconnect;
the client never sends Auth, AuthAck or Broadcast after
authentication. -/
theorem repl_sends_only_chat_or_disconnect (pending : List Bool) (es : List Event) :
    (replRun pending es).sent.all clientSends = true := by
  induction es generalizing pending with
  | nil => rfl
  | cons e es ih =>
    cases e with
    | inbound line =>
      cases hd : decodeMsg line with
      | none => simp [replRun, hd, ih]
      | some m => cases m <;> simp [replRun, hd, ih, clientSends]
    | inboundEof => simp [replRun]
    | inboundErr => simp [replRun]
    | stdin line =>
      rcases hts : takeSend pending with ⟨b, p2⟩
      by_cases h : String.mk (trimChars line.data) = "/exit" <;>
        cases b <;> simp [replRun, h, hts, clientSends, ih]
    | stdinEof =>
      rcases hts : takeSend pending with ⟨b, p2⟩
      cases b <;> simp [replRun, hts, clientSends]
    | interrupt =>
      rcases hts : takeSend pending with ⟨b, p2⟩
      cases b <;> simp [replRun, hts, clientSends]

/-- C2 counterexample: on a success AuthAck in the link flow the
client persists its locally generated uuid, not the identity field
returned by the server: with client uuid "Y" and server-returned
minecraft_uuid "X", the stored entry holds "Y", which differs from
"X". -/
theorem link_persists_client_uuid_cex :
    handle_link_ack [⟨"srv", "old"⟩] "srv" "Y"
        (.AuthAck ⟨"success", "ok", some "X", some "Steve"⟩)
      = .ok [⟨"srv", "Y"⟩] ∧ ("Y" : String) ≠ "X" :=
  ⟨rfl, by decide⟩

/-- C2 (amended): on a success AuthAck the link flow stores the
locally generated client uuid keyed by the server address, replacing
any prior entry for that address: afterwards the entries matching the
address are exactly the single new one. -/
theorem link_persist_replaces (servers : List ServerEntry)
    (addr clientUuid : String) (p : AuthAckPayload) (h : p.status = "success") :
    handle_link_ack servers addr clientUuid (.AuthAck p)
      = .ok (linkPersist servers addr clientUuid) ∧
    (linkPersist servers addr clientUuid).filter (fun e => e.address == addr)
      = [⟨addr, clientUuid⟩] := by
  constructor
  · simp [handle_link_ack, h]
  · rw [linkPersist, List.filter_append]
    have h1 : ∀ l : List ServerEntry,
        (l.filter (fun e => !(e.address == addr))).filter
          (fun e => e.address == addr) = [] := by
      intro l
      induction l with
      | nil => rfl
      | cons x xs ih =>
        by_cases hx : x.address == addr
        · simp [List.filter, hx, ih]
        · simp only [Bool.not_eq_true] at hx
          simp [List.filter, hx, ih]
    rw [h1]
    simp [List.filter]

/-- C2 witness. -/
theorem link_persist_replaces_witness :
    handle_link_ack [] "srv" "Y" (.AuthAck ⟨"success", "m", none, none⟩)
      = .ok (linkPersist [] "srv" "Y") ∧
    (linkPersist [] "srv" "Y").filter (fun e => e.address == "srv")
      = [⟨"srv", "Y"⟩] :=
  link_persist_replaces [] "srv" "Y" ⟨"success", "m", none, none⟩ rfl

end MineChat
